import Mathlib

/-!
# The adaptive countdown timer of `timer.go`

A shallow embedding of `CountdownTimer` and its operations, followed by the
properties established about them.

Modelling conventions.

* `float64` values (levels, `Curr`, `Min`) are exact rationals; the constant `1.2`
  is `6/5`. Rounding, infinities and NaN are outside the model.
* A Go map is a function into `Option`; a missing key is `none`.
* A `chan bool` is unbuffered. No goroutine ever parks on a flag channel (both
  the receive in `Wait` and the send in `Update` sit in a `select` with a
  `default` case), so a channel is described by whether it is still open or closed.
  A missing map entry reads as the nil channel.
* A run-time panic (index out of range, close of a closed or nil channel, send on
  a closed channel) is made explicit in the result of the operation.
* `time.Sleep` is recorded as the list of its arguments, in nanoseconds.
* The lock is not part of the state; what `Wait` does to it is given as a trace of
  events in program order.
* Other goroutines appear as `Update` calls placed between the statements of a
  `Wait`; each statement is atomic.
* For `DailyFixedTimer`, `time.Now()` is an argument and a local time is a day
  number with the second of the day and the nanosecond; every day has 24 hours.
-/

namespace Timer

/-- The struct `routineTime`: floor `Min` and current value `Curr`, in minutes. -/
structure routineTime where
  Min : ℚ
  Curr : ℚ
deriving DecidableEq

/-- State of a flag channel made by `make(chan bool)`. -/
inductive Chan where
  | opened
  | closed
deriving DecidableEq

/-- The struct `CountdownTimer`, without its lock. -/
structure CountdownTimer where
  Level : List ℚ
  Routines : String → Option routineTime
  Flag : String → Option Chan

/-- The constant `time.Minute`, in nanoseconds. -/
def Minute : Int := 60 * 1000000000

/-- Wrap-around of a signed 64 bit integer. -/
def wrapInt64 (n : Int) : Int := (n + 2 ^ 63) % 2 ^ 64 - 2 ^ 63

/-- The conversion `time.Duration(x)` of a `float64` to `int64`: the fraction is
discarded (truncation toward zero). Values beyond the `int64` range, where Go
leaves the result to the implementation, are not wrapped here. -/
def Duration (x : ℚ) : Int := if 0 ≤ x then ⌊x⌋ else ⌈x⌉

/-- The argument `time.Duration(self.Level[k]) * time.Minute` of `time.Sleep`,
in nanoseconds, for the level `v = self.Level[k]`. -/
def sleepArg (v : ℚ) : Int := wrapInt64 (Duration v * Minute)

/-- The loop `for k, v := range self.Level` of `Wait`, entered at index `k` with
the entries from `k` on still to visit. An entry below `curr` is skipped
(`continue`); at the first other entry the index steps back by one when
`k != 0 && v != curr`, and the loop breaks after sleeping for that index. The
result is the index slept for, `none` when the loop runs off the table. -/
def scanFrom (curr : ℚ) : Nat → List ℚ → Option Nat
  | _, [] => none
  | k, v :: rest =>
    if v < curr then scanFrom curr (k + 1) rest
    else some (if k ≠ 0 ∧ v ≠ curr then k - 1 else k)

/-- The loop of `Wait` over the whole table. -/
def scan (Level : List ℚ) (curr : ℚ) : Option Nat := scanFrom curr 0 Level

/-- The level `self.Level[k]` that `Wait` sleeps for when `Curr = curr`; `none`
when the loop ends without sleeping. -/
def LevelFor (Level : List ℚ) (curr : ℚ) : Option ℚ :=
  (scan Level curr).bind (fun k => Level[k]?)

/-- The quantization rule in the words of the specification: `r` is the largest
table entry that is at most `curr`, or `Level[0]` when `curr` is below `Level[0]`. -/
def IsQuantized (Level : List ℚ) (curr r : ℚ) : Prop :=
  ∀ l0, Level.head? = some l0 →
    (curr < l0 → r = l0) ∧
    (l0 ≤ curr → r ∈ Level ∧ r ≤ curr ∧ ∀ x ∈ Level, x ≤ curr → x ≤ r)

/-- What the deferred function of `Wait` leaves in the routine: the state written
so far, and whether an index panic cut the adjustment short. -/
structure Adjusted where
  rt : routineTime
  panicked : Bool

/-- The `case <-self.Flag[routine]` branch of the deferred function of `Wait`. -/
def shrink (Level : List ℚ) (rt : routineTime) : Adjusted :=
  let n := rt.Curr / (6 / 5)
  let rt1 : routineTime := if n > rt.Min then { rt with Curr := n } else { rt with Curr := rt.Min }
  match Level[0]? with
  | none => ⟨rt1, true⟩
  | some l0 => if rt1.Curr < l0 then ⟨{ rt1 with Curr := l0 }, false⟩ else ⟨rt1, false⟩

/-- The `default` branch of the deferred function of `Wait`. The index
`len(self.Level)-1` is out of range exactly when the table is empty. -/
def grow (Level : List ℚ) (rt : routineTime) : Adjusted :=
  let rt1 : routineTime := { rt with Curr := rt.Curr * (6 / 5) }
  match Level[Level.length - 1]? with
  | none => ⟨rt1, true⟩
  | some top => if rt1.Curr > top then ⟨{ rt1 with Curr := top }, false⟩ else ⟨rt1, false⟩

/-- Whether a receive in a `select` with `default` can proceed: only a closed
channel is ready, as nothing is ever sent and parked on a flag channel. -/
def recvReady : Option Chan → Bool
  | some Chan.closed => true
  | _ => false

/-- The statement `close(self.Flag[routine])`: the flag map afterwards, and
whether the close panicked (nil or already closed channel). -/
def closeFlag (Flag : String → Option Chan) (routine : String) : (String → Option Chan) × Bool :=
  match Flag routine with
  | some Chan.opened => (Function.update Flag routine (some Chan.closed), false)
  | _ => (Flag, true)

/-- Result of `Wait`: the state afterwards, the arguments of the `time.Sleep`
calls made, and whether a panic left the call. -/
structure WaitResult where
  ct : CountdownTimer
  slept : List Int
  panicked : Bool

/-- The method `Wait`, run without interference, with the outcome of the `select`
of its deferred function given by `sel` applied to the flag channel. An unknown
routine returns at once. Otherwise a fresh channel is stored, the loop sleeps
for the scanned level, the channel is closed, and the deferred function (which
first recovers a panic of the body, if any) adjusts `Curr`. An index panic in the
loop would skip the close. -/
def waitWith (sel : Option Chan → Bool) (ct : CountdownTimer) (routine : String) : WaitResult :=
  match ct.Routines routine with
  | none => ⟨ct, [], false⟩
  | some rt =>
    let flag1 := Function.update ct.Flag routine (some Chan.opened)
    let body : List Int × (String → Option Chan) :=
      match scan ct.Level rt.Curr with
      | none => ([], (closeFlag flag1 routine).1)
      | some k =>
        match ct.Level[k]? with
        | none => ([], flag1)
        | some v => ([sleepArg v], (closeFlag flag1 routine).1)
    let a := if sel (body.2 routine) then shrink ct.Level rt else grow ct.Level rt
    ⟨{ Level := ct.Level, Routines := Function.update ct.Routines routine (some a.rt),
       Flag := body.2 }, body.1, a.panicked⟩

/-- The method `Wait`: the `select` receives when the flag channel is ready. -/
def Wait (ct : CountdownTimer) (routine : String) : WaitResult :=
  waitWith recvReady ct routine

/-- Outcome of the send `self.Flag[routine] <- true` inside a `select` with `default`. -/
inductive SendOutcome where
  | sent
  | notReady
  | panics
deriving DecidableEq

/-- The send of `Update`: a nil channel and an open channel without a parked
receiver are not ready; a closed channel panics. -/
def trySend : Option Chan → SendOutcome
  | none => SendOutcome.notReady
  | some Chan.opened => SendOutcome.notReady
  | some Chan.closed => SendOutcome.panics

/-- Result of `Update`: the state afterwards and whether a panic left the call. -/
structure UpdateResult where
  ct : CountdownTimer
  panicked : Bool

/-- The method `Update`. An unknown routine returns at once. After the send
nothing else happens in either `select` case, and a panic of the send is stopped
by the deferred `recover()`. -/
def Update (ct : CountdownTimer) (routine : String) : UpdateResult :=
  match ct.Routines routine with
  | none => ⟨ct, false⟩
  | some _ =>
    match trySend (ct.Flag routine) with
    | SendOutcome.sent => ⟨ct, false⟩
    | SendOutcome.notReady => ⟨ct, false⟩
    | SendOutcome.panics => ⟨ct, false⟩

/-- The method `SetRoutine`; `none` is the index panic of `self.Level[0]`. -/
def SetRoutine (ct : CountdownTimer) (routine : String) (minTime : ℚ) : Option CountdownTimer :=
  match ct.Level[0]? with
  | none => none
  | some l0 =>
    some { ct with Routines := Function.update ct.Routines routine (some { Curr := l0, Min := minTime }) }

/-- The method `RemoveRoutine`. -/
def RemoveRoutine (ct : CountdownTimer) (routine : String) : CountdownTimer :=
  { ct with Routines := Function.update ct.Routines routine none,
            Flag := Function.update ct.Flag routine none }

/-- The method `SetLevel`. -/
def SetLevel (ct : CountdownTimer) (level : List ℚ) : CountdownTimer :=
  { ct with Level := level }

/-- The library call `sort.Float64s`: an ascending sort. -/
def Float64s (level : List ℚ) : List ℚ := level.insertionSort (· ≤ ·)

/-- The constructor `NewCountdownTimer`. The range loop stores one entry per key
of `routines`, which for maps as functions is the pointwise image. `none` is the
index panic of `ct.Level[0]`. -/
def NewCountdownTimer (level : List ℚ) (routines : String → Option ℚ) : Option CountdownTimer :=
  let level1 := if level.length = 0 then [60 * 24] else level
  let level2 := Float64s level1
  match level2[0]? with
  | none => none
  | some l0 =>
    some { Level := level2,
           Routines := fun routine => (routines routine).map (fun minTime => { Curr := l0, Min := minTime }),
           Flag := fun _ => none }

/-- One call made by the owning application: a `Wait` whose `select` takes the
receive case (`delivered = true`) or the default case, or an `Update`. -/
inductive Call where
  | wait (routine : String) (delivered : Bool)
  | update (routine : String)

/-- State after one call. -/
def Call.run (ct : CountdownTimer) : Call → CountdownTimer
  | Call.wait routine delivered => (waitWith (fun _ => delivered) ct routine).ct
  | Call.update routine => (Update ct routine).ct

/-- State after a sequence of calls. -/
def runCalls (ct : CountdownTimer) (calls : List Call) : CountdownTimer :=
  calls.foldl Call.run ct

/-- A timer with levels `[1,5,20,60]` and the routine `r` with `Min = 1`, `Curr = 1`. -/
def timerR : CountdownTimer :=
  { Level := [1, 5, 20, 60],
    Routines := fun routine => if routine = "r" then some { Min := 1, Curr := 1 } else none,
    Flag := fun _ => none }

/-- A timer with the single level `1.5` and the routine `r` waiting at it, as
built by `NewCountdownTimer([]float64{1.5}, map[string]float64{"r": 1})`. -/
def timerFrac : CountdownTimer :=
  { Level := [3 / 2],
    Routines := fun routine => if routine = "r" then some { Min := 1, Curr := 3 / 2 } else none,
    Flag := fun _ => none }

/-- The level in the words of the specification, first part: the smallest index
`k` with `Level[k] >= curr`, if there is one. -/
def firstIndexGe (curr : ℚ) : List ℚ → Option Nat
  | [] => none
  | v :: rest => if curr ≤ v then some 0 else (firstIndexGe curr rest).map (· + 1)

/-- The formal rule of the specification for `LevelFor(curr)`: with `k` the smallest
index such that `Level[k] >= curr`, return `Level[k]` if `Level[k] == curr`, else
`Level[0]` if `k == 0`, else `Level[k-1]`. -/
def LevelForSpec (Level : List ℚ) (curr : ℚ) : Option ℚ :=
  (firstIndexGe curr Level).bind (fun k =>
    if Level[k]? = some curr then Level[k]?
    else if k = 0 then Level[0]?
    else Level[k - 1]?)

/-- A local time as the library type `time.Time` presents it to `deadline`: the
calendar day (a day number standing for year, month and day), the second of that
day and the nanosecond of that second. Every day has 24 hours. -/
structure Time where
  day : Int
  sec : Int
  nsec : Int

/-- The method `t.Hour()`. -/
def Time.Hour (t : Time) : Int := t.sec / 3600

/-- The method `t.Minute()`. -/
def Time.Minute (t : Time) : Int := t.sec / 60 % 60

/-- The method `t.Second()`. -/
def Time.Second (t : Time) : Int := t.sec % 60

/-- The call `t.Add(24 * time.Hour)`. -/
def Time.AddDay (t : Time) : Time := { t with day := t.day + 1 }

/-- The call `time.Date(year, month, day, h, m, s, 0, time.Local)`; values of
`h`, `m`, `s` outside their ranges are normalized into the neighbouring days. -/
def Date (day h m s : Int) : Time :=
  { day := day + (h * 3600 + m * 60 + s) / 86400,
    sec := (h * 3600 + m * 60 + s) % 86400,
    nsec := 0 }

/-- Nanoseconds from the start of day 0 to `t`. -/
def Time.abs (t : Time) : Int := (t.day * 86400 + t.sec) * 1000000000 + t.nsec

/-- The type `DailyFixedTimer`: routine to `[3]int{hour, minute, second}`. -/
def DailyFixedTimer : Type := String → Option (Int × Int × Int)

/-- The read `self[routine]`; a missing key gives the zero array. -/
def DailyFixedTimer.entry (self : DailyFixedTimer) (routine : String) : Int × Int × Int :=
  (self routine).getD (0, 0, 0)

/-- The method `deadline`, with the value of `time.Now()` as an argument. -/
def DailyFixedTimer.deadline (self : DailyFixedTimer) (routine : String) (now : Time) : Time :=
  let e := self.entry routine
  let t :=
    if now.Hour > e.1 then now.AddDay
    else if now.Hour = e.1 ∧ now.Minute > e.2.1 then now.AddDay
    else if now.Hour = e.1 ∧ now.Minute = e.2.1 ∧ now.Second ≥ e.2.2 then now.AddDay
    else now
  Date t.day e.1 e.2.1 e.2.2

/-- What `Wait` does to the lock and the clock, in program order. -/
inductive Event where
  | RLock
  | RUnlock
  | Sleep (d : Int)
  | Adjust
deriving DecidableEq

/-- The events of `Wait` in the order the source runs them: `RLock` on entry; the
deferred `RUnlock` last; for a registered routine the sleeps of the loop and then
the deferred adjustment, which was deferred later and so runs before `RUnlock`. -/
def waitTrace (ct : CountdownTimer) (routine : String) : List Event :=
  match ct.Routines routine with
  | none => [Event.RLock, Event.RUnlock]
  | some _ =>
    [Event.RLock] ++ (Wait ct routine).slept.map Event.Sleep ++ [Event.Adjust, Event.RUnlock]

/-- Whether every `Sleep` of a trace happens while the caller holds no read lock;
`held` counts the read locks held on entry. -/
def sleepsUnlocked (held : Nat) : List Event → Bool
  | [] => true
  | Event.RLock :: rest => sleepsUnlocked (held + 1) rest
  | Event.RUnlock :: rest => sleepsUnlocked (held - 1) rest
  | Event.Sleep _ :: rest => decide (held = 0) && sleepsUnlocked held rest
  | Event.Adjust :: rest => sleepsUnlocked held rest

/-- Whether every `Sleep` of a trace happens while the caller holds a read lock. -/
def sleepsLocked (held : Nat) : List Event → Bool
  | [] => true
  | Event.RLock :: rest => sleepsLocked (held + 1) rest
  | Event.RUnlock :: rest => sleepsLocked (held - 1) rest
  | Event.Sleep _ :: rest => decide (0 < held) && sleepsLocked held rest
  | Event.Adjust :: rest => sleepsLocked held rest

/-- The outcome of the send made by `Update`; `none` when the routine is unknown
and no send is attempted. -/
def updateSend (ct : CountdownTimer) (routine : String) : Option SendOutcome :=
  match ct.Routines routine with
  | none => none
  | some _ => some (trySend (ct.Flag routine))

/-- State after `n` calls of `Update(routine)` in a row. -/
def updates (n : Nat) (ct : CountdownTimer) (routine : String) : CountdownTimer :=
  (fun c => (Update c routine).ct)^[n] ct

/-- The statement `self.Flag[routine] = make(chan bool)` of `Wait`. -/
def waitArm (ct : CountdownTimer) (routine : String) : CountdownTimer :=
  { ct with Flag := Function.update ct.Flag routine (some Chan.opened) }

/-- The statement `close(self.Flag[routine])` of `Wait`. -/
def waitRetire (ct : CountdownTimer) (routine : String) : CountdownTimer :=
  { ct with Flag := (closeFlag ct.Flag routine).1 }

/-- The deferred function of `Wait`: the `select` and its adjustment; the flag is
true when a panic leaves it (index out of range, or the routine is gone). -/
def waitResolve (ct : CountdownTimer) (routine : String) : CountdownTimer × Bool :=
  match ct.Routines routine with
  | none => (ct, true)
  | some rt =>
    let a := if recvReady (ct.Flag routine) then shrink ct.Level rt else grow ct.Level rt
    ({ ct with Routines := Function.update ct.Routines routine (some a.rt) }, a.panicked)

/-- One `Wait(routine)` interleaved with `Update(routine)` calls of other
goroutines: `n0` calls before the channel is made, `n1` calls between the making
of the channel and its close (before, during or after the sleep), `n2` calls
between the close and the deferred `select`, `n3` calls after it. -/
def interleavedWait (ct : CountdownTimer) (routine : String) (n0 n1 n2 n3 : Nat) : WaitResult :=
  let ct0 := updates n0 ct routine
  match ct0.Routines routine with
  | none => ⟨updates (n1 + n2 + n3) ct0 routine, [], false⟩
  | some rt =>
    let ct1 := updates n1 (waitArm ct0 routine) routine
    let body : List Int × Bool :=
      match scan ct1.Level rt.Curr with
      | none => ([], false)
      | some k =>
        match ct1.Level[k]? with
        | none => ([], true)
        | some v => ([sleepArg v], false)
    let ct2 := updates n2 (if body.2 then ct1 else waitRetire ct1 routine) routine
    let r := waitResolve ct2 routine
    ⟨updates n3 r.1 routine, body.1, r.2⟩

/-- The timer `timerR` with the floor of `r` set to 100, above every level. -/
def timerHighMin : CountdownTimer :=
  { Level := [1, 5, 20, 60],
    Routines := fun routine => if routine = "r" then some { Min := 100, Curr := 1 } else none,
    Flag := fun _ => none }

/-! ## Auxiliary lemmas -/

theorem scanFrom_spec (curr : ℚ) : ∀ (suf pre : List ℚ), (pre ++ suf).Sorted (· ≤ ·) →
    (∀ x ∈ pre, x < curr) → (∃ x ∈ suf, curr ≤ x) →
    ∃ k r, scanFrom curr pre.length suf = some k ∧ (pre ++ suf)[k]? = some r ∧
      ((pre = [] ∧ (pre ++ suf).head? = some r ∧ curr ≤ r) ∨
        (r ≤ curr ∧ r ∈ pre ++ suf ∧ ∀ x ∈ pre ++ suf, x ≤ curr → x ≤ r)) := by
  intro suf
  induction suf with
  | nil => intro pre _ _ hex; obtain ⟨x, hx, _⟩ := hex; simp at hx
  | cons v rest ih =>
    intro pre hs hpre hex
    by_cases hv : v < curr
    · have hex2 : ∃ x ∈ rest, curr ≤ x := by
        obtain ⟨x, hx, hcx⟩ := hex
        rcases List.mem_cons.1 hx with rfl | hx
        · exact absurd hv (not_lt.2 hcx)
        · exact ⟨x, hx, hcx⟩
      have hpre2 : ∀ x ∈ pre ++ [v], x < curr := by
        intro x hx
        rcases List.mem_append.1 hx with h | h
        · exact hpre x h
        · simp at h; rw [h]; exact hv
      have heq : (pre ++ [v]) ++ rest = pre ++ v :: rest := by simp
      obtain ⟨k, r, h1, h2, h3⟩ := ih (pre ++ [v]) (by rw [heq]; exact hs) hpre2 hex2
      refine ⟨k, r, ?_, ?_, ?_⟩
      · simp only [scanFrom, hv, if_true]
        simpa using h1
      · rw [← heq]; exact h2
      · rcases h3 with ⟨h, _⟩ | h
        · simp at h
        · right; rw [← heq]; exact h
    · have hcv : curr ≤ v := not_lt.1 hv
      rcases List.eq_nil_or_concat pre with hnil | ⟨p, a, hpa⟩
      · subst hnil
        refine ⟨0, v, ?_, ?_, ?_⟩
        · simp [scanFrom, hv]
        · simp
        · left; simp [hcv]
      · subst hpa
        have ha : a < curr := hpre a (by simp)
        by_cases hvc : v = curr
        · refine ⟨p.length + 1, v, ?_, ?_, ?_⟩
          · simp [scanFrom, hv, hvc]
          · have : (p.concat a ++ v :: rest) = (p ++ [a]) ++ v :: rest := by simp
            rw [this, List.getElem?_append_right (by simp)]
            simp
          · right
            refine ⟨le_of_eq hvc, by simp, ?_⟩
            intro x _ hx; rw [hvc]; exact hx
        · refine ⟨p.length, a, ?_, ?_, ?_⟩
          · simp [scanFrom, hv, hvc]
          · have : (p.concat a ++ v :: rest) = p ++ a :: v :: rest := by simp
            rw [this, List.getElem?_append_right (le_refl _)]
            simp
          · right
            refine ⟨le_of_lt ha, by simp, ?_⟩
            intro x hx hxc
            have hs2 : (p ++ a :: v :: rest).Sorted (· ≤ ·) := by simpa using hs
            have hx2 : x ∈ p ∨ x = a ∨ x ∈ v :: rest := by
              simpa [List.mem_append, or_assoc] using hx
            rcases hx2 with h | h | h
            · have := List.pairwise_append.1 hs2
              exact this.2.2 x h a (by simp)
            · exact le_of_eq h
            · exfalso
              have h3 : (v :: rest).Sorted (· ≤ ·) := by
                have := (List.pairwise_append.1 hs2).2.1
                exact (List.pairwise_cons.1 this).2
              have hvx : v ≤ x := by
                rcases List.mem_cons.1 h with rfl | h
                · exact le_refl _
                · exact (List.pairwise_cons.1 h3).1 x h
              exact hvc (le_antisymm (le_trans hvx hxc) hcv)

theorem sorted_1_5_20_60 : List.Sorted (· ≤ ·) ([1, 5, 20, 60] : List ℚ) := by
  norm_num [List.Sorted]

theorem head_le_of_sorted (Level : List ℚ) (hs : Level.Sorted (· ≤ ·)) (l0 : ℚ)
    (h0 : Level.head? = some l0) (x : ℚ) (hx : x ∈ Level) : l0 ≤ x := by
  cases Level with
  | nil => simp at h0
  | cons a t =>
    simp only [List.head?_cons, Option.some.injEq] at h0
    subst h0
    rcases List.mem_cons.1 hx with rfl | hx
    · exact le_refl _
    · exact (List.pairwise_cons.1 hs).1 x hx

theorem LevelFor_some_isQuantized (Level : List ℚ) (hs : Level.Sorted (· ≤ ·)) (curr : ℚ)
    (hex : ∃ x ∈ Level, curr ≤ x) :
    ∃ r, LevelFor Level curr = some r ∧ IsQuantized Level curr r := by
  obtain ⟨k, r, h1, h2, h3⟩ := scanFrom_spec curr Level [] (by simpa using hs) (by simp) hex
  simp only [List.nil_append, List.length_nil] at h1 h2 h3
  refine ⟨r, ?_, ?_⟩
  · simp [LevelFor, scan, h1, h2]
  · intro l0 hl0
    rcases h3 with ⟨_, hr, hcr⟩ | ⟨hrc, hmem, hmax⟩
    · have hrl : r = l0 := by rw [hr] at hl0; exact Option.some.inj hl0
      subst hrl
      refine ⟨fun _ => rfl, fun hle => ⟨List.mem_of_mem_head? hr, hle, ?_⟩⟩
      intro x _ hx
      exact le_trans hx hcr
    · refine ⟨fun hlt => ?_, fun _ => ⟨hmem, hrc, hmax⟩⟩
      have := head_le_of_sorted Level hs l0 hl0 r hmem
      exact absurd (lt_of_lt_of_le hlt (le_trans this hrc)) (lt_irrefl _)

/-- Within the ceiling the scan quantizes: for a non-empty ascending level table and
every `curr` that is at most `Level[last]`, the level the scan of `Wait` selects is
the largest table entry that is at most `curr`, or `Level[0]` when
`curr < Level[0]`; and for levels `[1,5,20,60]` it selects 1 for 1.2, 20 for 20 and
1 for 0.5. -/
theorem LevelFor_isQuantized (Level : List ℚ) (hne : Level ≠ [])
    (hs : Level.Sorted (· ≤ ·)) (curr : ℚ) (hc : curr ≤ Level.getLast hne) :
    (∃ r, LevelFor Level curr = some r ∧ IsQuantized Level curr r) ∧
      LevelFor [1, 5, 20, 60] (6 / 5) = some 1 ∧
      LevelFor [1, 5, 20, 60] 20 = some 20 ∧
      LevelFor [1, 5, 20, 60] (1 / 2) = some 1 := by
  refine ⟨LevelFor_some_isQuantized Level hs curr ⟨_, List.getLast_mem hne, hc⟩, ?_, ?_, ?_⟩ <;>
    norm_num [LevelFor, scan, scanFrom]

/-- Witness of `LevelFor_isQuantized` at levels `[1,5,20,60]` and `curr = 7`. -/
theorem LevelFor_isQuantized_witness :
    List.Sorted (· ≤ ·) ([1, 5, 20, 60] : List ℚ) ∧
      (∃ r, LevelFor [1, 5, 20, 60] 7 = some r ∧ IsQuantized [1, 5, 20, 60] 7 r) :=
  ⟨sorted_1_5_20_60,
    (LevelFor_isQuantized [1, 5, 20, 60] (by simp) sorted_1_5_20_60 7 (by norm_num)).1⟩

/-- Above the ceiling the scan selects nothing: for levels `[1,5,20,60]` and
`curr = 100` it runs off the table, although 60 is the largest entry that is at
most 100. -/
theorem LevelFor_above_ceiling_selects_nothing :
    List.Sorted (· ≤ ·) ([1, 5, 20, 60] : List ℚ) ∧
      LevelFor [1, 5, 20, 60] 100 = none ∧
      IsQuantized [1, 5, 20, 60] 100 60 ∧
      ¬ ∃ r, LevelFor [1, 5, 20, 60] 100 = some r ∧ IsQuantized [1, 5, 20, 60] 100 r := by
  have hnone : LevelFor [1, 5, 20, 60] 100 = none := by
    norm_num [LevelFor, scan, scanFrom]
  refine ⟨sorted_1_5_20_60, hnone, ?_, ?_⟩
  · intro l0 hl0
    simp only [List.head?_cons, Option.some.injEq] at hl0
    subst hl0
    refine ⟨fun h => by norm_num at h, fun _ => ⟨by simp, by norm_num, ?_⟩⟩
    intro x hx _
    simp only [List.mem_cons, List.mem_singleton, List.not_mem_nil, or_false] at hx
    rcases hx with rfl | rfl | rfl | rfl <;> norm_num
  · rintro ⟨r, hr, _⟩
    rw [hnone] at hr
    exact absurd hr (by simp)

theorem scanFrom_lt (curr : ℚ) : ∀ (suf : List ℚ) (k j : Nat),
    scanFrom curr k suf = some j → j < k + suf.length := by
  intro suf
  induction suf with
  | nil => intro k j h; simp [scanFrom] at h
  | cons v rest ih =>
    intro k j h
    simp only [scanFrom] at h
    split at h
    · have := ih (k + 1) j h
      simp only [List.length_cons]
      omega
    · simp only [Option.some.injEq] at h
      simp only [List.length_cons]
      split at h <;> omega

theorem waitWith_unknown (sel : Option Chan → Bool) (ct : CountdownTimer) (routine : String)
    (h : ct.Routines routine = none) : waitWith sel ct routine = ⟨ct, [], false⟩ := by
  simp [waitWith, h]

theorem waitWith_const (d : Bool) (ct : CountdownTimer) (routine : String) (rt : routineTime)
    (h : ct.Routines routine = some rt) :
    (waitWith (fun _ => d) ct routine).ct.Level = ct.Level ∧
      (waitWith (fun _ => d) ct routine).ct.Routines =
        Function.update ct.Routines routine
          (some (if d then shrink ct.Level rt else grow ct.Level rt).rt) ∧
      (waitWith (fun _ => d) ct routine).panicked =
        (if d then shrink ct.Level rt else grow ct.Level rt).panicked := by
  simp only [waitWith, h]
  cases d <;> simp

theorem Wait_registered (ct : CountdownTimer) (routine : String) (rt : routineTime)
    (h : ct.Routines routine = some rt) :
    (Wait ct routine).ct.Level = ct.Level ∧
      (Wait ct routine).ct.Routines =
        Function.update ct.Routines routine (some (shrink ct.Level rt).rt) ∧
      (Wait ct routine).ct.Flag = Function.update ct.Flag routine (some Chan.closed) ∧
      (Wait ct routine).slept = ((LevelFor ct.Level rt.Curr).map sleepArg).toList ∧
      (Wait ct routine).panicked = (shrink ct.Level rt).panicked := by
  have hclose : (closeFlag (Function.update ct.Flag routine (some Chan.opened)) routine).1 =
      Function.update ct.Flag routine (some Chan.closed) := by
    simp [closeFlag]
  simp only [Wait, waitWith, h, hclose, LevelFor]
  cases hk : scan ct.Level rt.Curr with
  | none => simp [recvReady]
  | some k =>
    have hlt : k < ct.Level.length := by
      have := scanFrom_lt rt.Curr ct.Level 0 k hk
      omega
    simp [List.getElem?_eq_getElem hlt, recvReady]

theorem sleepArg_three_halves : sleepArg (3 / 2) = 1 * Minute := by
  have hfl : ⌊(3 / 2 : ℚ)⌋ = 1 := by
    rw [Int.floor_eq_iff]
    norm_num
  have hpos : (0 : ℚ) ≤ 3 / 2 := by norm_num
  simp only [sleepArg, Duration, hpos, if_true, hfl]
  norm_num [wrapInt64, Minute]

theorem sleepArg_one : sleepArg 1 = Minute := by
  have hfl : ⌊(1 : ℚ)⌋ = 1 := by simp
  have hpos : (0 : ℚ) ≤ 1 := by norm_num
  simp only [sleepArg, Duration, hpos, if_true, hfl]
  norm_num [wrapInt64, Minute]

/-- C2 (evaluation at the failing input): with the single level 1.5 and `Curr = 1.5`
the quantized level is 1.5, yet `Wait` passes one whole minute to `time.Sleep`,
which is not 1.5 minutes: the fraction of the level is discarded. -/
theorem Wait_sleep_drops_fraction :
    NewCountdownTimer [3 / 2] (fun routine => if routine = "r" then some 1 else none)
        = some timerFrac ∧
      LevelFor timerFrac.Level (3 / 2) = some (3 / 2) ∧
      (Wait timerFrac "r").slept = [1 * Minute] ∧
      ((1 * Minute : Int) : ℚ) ≠ (3 / 2) * (Minute : ℚ) := by
  have hlf : LevelFor timerFrac.Level (3 / 2) = some (3 / 2) := by
    norm_num [timerFrac, LevelFor, scan, scanFrom]
  have hreg : timerFrac.Routines "r" = some ⟨1, 3 / 2⟩ := by simp [timerFrac]
  refine ⟨?_, hlf, ?_, ?_⟩
  · simp only [NewCountdownTimer, Float64s, timerFrac]
    simp only [List.length_cons, List.length_nil, List.insertionSort, List.orderedInsert]
    simp only [Nat.zero_add, one_ne_zero, if_false, List.getElem?_cons_zero, Option.some.injEq,
      CountdownTimer.mk.injEq, true_and, and_true]
    funext routine
    by_cases h : routine = "r" <;> simp [h]
  · have := (Wait_registered timerFrac "r" ⟨1, 3 / 2⟩ hreg).2.2.2.1
    rw [this]
    simp only [hlf, Option.map_some', Option.toList_some, sleepArg_three_halves]
  · norm_num [Minute]

/-- C3 (evaluation at the failing input): with levels `[1,5,20,60]`, `Min = 1` and
`Curr = 1`, a `Wait` during which `Update` is never called sleeps one minute and
then takes the receive branch, as the flag channel is closed before the `select`
runs: `Curr` stays 1 and never becomes 1.2, and a second `Wait` again leaves 1,
not 1.44. -/
theorem Wait_without_Update_does_not_grow :
    (Wait timerR "r").slept = [Minute] ∧
      (Wait timerR "r").ct.Routines "r" = some ⟨1, 1⟩ ∧
      (Wait timerR "r").ct.Routines "r" ≠ some ⟨1, min (1 * (6 / 5)) 60⟩ ∧
      (Wait (Wait timerR "r").ct "r").slept = [Minute] ∧
      (Wait (Wait timerR "r").ct "r").ct.Routines "r" = some ⟨1, 1⟩ ∧
      (Wait (Wait timerR "r").ct "r").ct.Routines "r" ≠ some ⟨1, 36 / 25⟩ := by
  have hreg : timerR.Routines "r" = some ⟨1, 1⟩ := by simp [timerR]
  have hlf : LevelFor timerR.Level 1 = some 1 := by
    norm_num [timerR, LevelFor, scan, scanFrom]
  have hsh : (shrink timerR.Level ⟨1, 1⟩).rt = ⟨1, 1⟩ := by
    norm_num [timerR, shrink]
  obtain ⟨h1, h2, _, h4, _⟩ := Wait_registered timerR "r" ⟨1, 1⟩ hreg
  have hreg2 : (Wait timerR "r").ct.Routines "r" = some ⟨1, 1⟩ := by
    rw [h2, hsh]; simp
  obtain ⟨_, k2, _, k4, _⟩ := Wait_registered (Wait timerR "r").ct "r" ⟨1, 1⟩ hreg2
  have hreg3 : (Wait (Wait timerR "r").ct "r").ct.Routines "r" = some ⟨1, 1⟩ := by
    rw [k2, h1, hsh]; simp
  refine ⟨?_, hreg2, ?_, ?_, hreg3, ?_⟩
  · rw [h4]; simp [hlf, sleepArg_one]
  · rw [hreg2]; norm_num
  · rw [k4, h1]; simp [hlf, sleepArg_one]
  · rw [hreg3]; norm_num

theorem shrink_eq (Level : List ℚ) (hne : Level ≠ []) (rt : routineTime) :
    shrink Level rt =
      ⟨⟨rt.Min, max (max (rt.Curr / (6 / 5)) rt.Min) (Level.head hne)⟩, false⟩ := by
  cases Level with
  | nil => exact absurd rfl hne
  | cons l0 t =>
    simp only [shrink, List.getElem?_cons_zero, List.head_cons]
    by_cases h1 : rt.Curr / (6 / 5) > rt.Min
    · have hm : max (rt.Curr / (6 / 5)) rt.Min = rt.Curr / (6 / 5) := max_eq_left (le_of_lt h1)
      by_cases h2 : rt.Curr / (6 / 5) < l0
      · simp [h1, h2, hm, max_eq_right (le_of_lt h2)]
      · simp [h1, h2, hm, max_eq_left (not_lt.1 h2)]
    · have hm : max (rt.Curr / (6 / 5)) rt.Min = rt.Min := max_eq_right (not_lt.1 h1)
      by_cases h2 : rt.Min < l0
      · simp [h1, h2, hm, max_eq_right (le_of_lt h2)]
      · simp [h1, h2, hm, max_eq_left (not_lt.1 h2)]

/-- C4: for every routine state and every non-empty level table, the receive branch
of the adjustment of `Wait` sets `Curr` to `max(c0 / 1.2, Min, Level[0])` and keeps
`Min`; this is what a `Wait` on a registered routine whose `select` receives
writes back, without a panic. -/
theorem shrink_sets_max (Level : List ℚ) (hne : Level ≠ []) (rt : routineTime) :
    (shrink Level rt).rt.Curr = max (max (rt.Curr / (6 / 5)) rt.Min) (Level.head hne) ∧
      (shrink Level rt).rt.Min = rt.Min ∧
      (shrink Level rt).panicked = false ∧
      ∀ (ct : CountdownTimer) (routine : String), ct.Level = Level →
        ct.Routines routine = some rt →
        (waitWith (fun _ => true) ct routine).ct.Routines routine =
            some ⟨rt.Min, max (max (rt.Curr / (6 / 5)) rt.Min) (Level.head hne)⟩ ∧
          (waitWith (fun _ => true) ct routine).panicked = false := by
  have hs := shrink_eq Level hne rt
  refine ⟨by rw [hs], by rw [hs], by rw [hs], ?_⟩
  intro ct routine hL hreg
  obtain ⟨_, h2, h3⟩ := waitWith_const true ct routine rt hreg
  rw [h2, h3, hL]
  simp [hs]

/-- Witness of `shrink_sets_max` at levels `[1,5,20,60]` and `Min = 1`, `Curr = 12`. -/
theorem shrink_sets_max_witness :
    (shrink [1, 5, 20, 60] ⟨1, 12⟩).rt.Curr = max (max (12 / (6 / 5)) 1) 1 ∧
      (shrink [1, 5, 20, 60] ⟨1, 12⟩).rt.Min = 1 :=
  ⟨(shrink_sets_max [1, 5, 20, 60] (by simp) ⟨1, 12⟩).1,
    (shrink_sets_max [1, 5, 20, 60] (by simp) ⟨1, 12⟩).2.1⟩

theorem grow_eq (Level : List ℚ) (hne : Level ≠ []) (rt : routineTime) :
    grow Level rt = ⟨⟨rt.Min, min (rt.Curr * (6 / 5)) (Level.getLast hne)⟩, false⟩ := by
  have hlen : Level.length - 1 < Level.length := by
    have := List.length_pos.2 hne
    omega
  have htop : Level[Level.length - 1]? = some (Level.getLast hne) := by
    rw [List.getElem?_eq_getElem hlen, List.getLast_eq_getElem]
  simp only [grow, htop]
  by_cases h : rt.Curr * (6 / 5) > Level.getLast hne
  · simp [h, min_eq_right (le_of_lt h)]
  · simp [h, min_eq_left (not_lt.1 h)]

theorem Update_eq (ct : CountdownTimer) (routine : String) : Update ct routine = ⟨ct, false⟩ := by
  unfold Update
  cases ct.Routines routine with
  | none => rfl
  | some rt => cases trySend (ct.Flag routine) <;> rfl

theorem Call_run_Level (ct : CountdownTimer) (c : Call) : (Call.run ct c).Level = ct.Level := by
  cases c with
  | update j => simp [Call.run, Update_eq]
  | wait j d =>
    simp only [Call.run]
    cases h : ct.Routines j with
    | none => rw [waitWith_unknown _ ct j h]
    | some rt => exact (waitWith_const d ct j rt h).1

theorem runCalls_Level (calls : List Call) : ∀ ct : CountdownTimer,
    (runCalls ct calls).Level = ct.Level := by
  induction calls with
  | nil => intro ct; rfl
  | cons c cs ih =>
    intro ct
    have := ih (Call.run ct c)
    rw [Call_run_Level] at this
    simpa [runCalls] using this

theorem min_grow_pow (c top : ℚ) (htop : 0 ≤ top) (k : ℕ) :
    min (min (c * (6 / 5)) top * (6 / 5) ^ k) top = min (c * (6 / 5) ^ (k + 1)) top := by
  have hq : (1 : ℚ) ≤ (6 / 5) ^ k := one_le_pow₀ (by norm_num)
  by_cases h : c * (6 / 5) ≤ top
  · rw [min_eq_left h, pow_succ]
    congr 1
    ring
  · have h2 : top < c * (6 / 5) := not_le.1 h
    have h3 : top ≤ top * (6 / 5) ^ k := by nlinarith
    have h4 : top * (6 / 5) ^ k ≤ c * (6 / 5) ^ (k + 1) := by
      have : c * (6 / 5) ^ (k + 1) = c * (6 / 5) * (6 / 5) ^ k := by ring
      rw [this]
      exact mul_le_mul_of_nonneg_right (le_of_lt h2) (le_trans zero_le_one hq)
    rw [min_eq_right (le_of_lt h2), min_eq_right h3, min_eq_right (le_trans h3 h4)]

theorem runCalls_grow (Level : List ℚ) (hne : Level ≠ []) (htop : 0 ≤ Level.getLast hne)
    (routine : String) : ∀ (k : ℕ) (ct : CountdownTimer) (rt : routineTime),
    ct.Level = Level → ct.Routines routine = some rt → rt.Curr ≤ Level.getLast hne →
    (runCalls ct (List.replicate k (Call.wait routine false))).Routines routine =
      some ⟨rt.Min, min (rt.Curr * (6 / 5) ^ k) (Level.getLast hne)⟩ := by
  intro k
  induction k with
  | zero =>
    intro ct rt _ hreg hle
    simp [runCalls, hreg, min_eq_left hle]
  | succ k ih =>
    intro ct rt hL hreg hle
    obtain ⟨h1, h2, _⟩ := waitWith_const false ct routine rt hreg
    have hstep : (Call.run ct (Call.wait routine false)).Routines routine =
        some ⟨rt.Min, min (rt.Curr * (6 / 5)) (Level.getLast hne)⟩ := by
      simp only [Call.run, h2, hL]
      simp [grow_eq Level hne rt]
    have hlev : (Call.run ct (Call.wait routine false)).Level = Level := by
      simp only [Call.run, h1, hL]
    have := ih (Call.run ct (Call.wait routine false)) _ hlev hstep (min_le_right _ _)
    simp only [List.replicate_succ, runCalls, List.foldl_cons] at this ⊢
    rw [this, min_grow_pow _ _ htop]

/-- C5: for every table of positive levels, every `c0` with `c0 <= Level[last]` (in
particular every `c0` with `Level[0] <= c0 <= Level[last]`) and every `k`, after `k`
consecutive `Wait` cycles of a registered routine whose adjustment takes the
default (grow) branch, the routine has `Curr = min(c0 * 1.2^k, Level[last])`, with
`Min` and the table unchanged. -/
theorem grow_k_times (Level : List ℚ) (hne : Level ≠ []) (hpos : ∀ x ∈ Level, 0 < x)
    (ct : CountdownTimer) (routine : String) (minTime c0 : ℚ) (hL : ct.Level = Level)
    (hreg : ct.Routines routine = some ⟨minTime, c0⟩)
    (h1 : c0 ≤ Level.getLast hne) (k : ℕ) :
    (runCalls ct (List.replicate k (Call.wait routine false))).Routines routine =
        some ⟨minTime, min (c0 * (6 / 5) ^ k) (Level.getLast hne)⟩ ∧
      (runCalls ct (List.replicate k (Call.wait routine false))).Level = Level := by
  have htop : 0 ≤ Level.getLast hne := le_of_lt (hpos _ (List.getLast_mem hne))
  exact ⟨runCalls_grow Level hne htop routine k ct ⟨minTime, c0⟩ hL hreg h1,
    (runCalls_Level _ ct).trans hL⟩

/-- Witness of `grow_k_times`: on `timerR`, three grow cycles from `Curr = 1`. -/
theorem grow_k_times_witness :
    (1 : ℚ) ≤ 1 ∧
      (runCalls timerR (List.replicate 3 (Call.wait "r" false))).Routines "r" =
        some ⟨1, min (1 * (6 / 5) ^ 3) (List.getLast ([1, 5, 20, 60] : List ℚ) (by simp))⟩ :=
  ⟨le_refl 1, (grow_k_times [1, 5, 20, 60] (by simp)
    (by intro x hx; simp at hx; rcases hx with rfl | rfl | rfl | rfl <;> norm_num)
    timerR "r" 1 1 rfl (by simp [timerR]) (by norm_num) 3).1⟩

theorem adjust_in_bounds (Level : List ℚ) (hne : Level ≠ []) (hpos : ∀ x ∈ Level, 0 < x)
    (rt : routineTime) (hmin : rt.Min ≤ Level.getLast hne) (h0 : Level.head hne ≤ rt.Curr)
    (h1 : rt.Curr ≤ Level.getLast hne) (d : Bool) :
    (if d then shrink Level rt else grow Level rt).rt.Min = rt.Min ∧
      Level.head hne ≤ (if d then shrink Level rt else grow Level rt).rt.Curr ∧
      (if d then shrink Level rt else grow Level rt).rt.Curr ≤ Level.getLast hne := by
  have hl0 : 0 < Level.head hne := hpos _ (List.head_mem hne)
  have hc : 0 < rt.Curr := lt_of_lt_of_le hl0 h0
  cases d with
  | true =>
    simp only [if_true, shrink_eq Level hne rt]
    refine ⟨trivial, le_max_right _ _, max_le (max_le ?_ hmin) (le_trans h0 h1)⟩
    have : rt.Curr / (6 / 5) ≤ rt.Curr := by
      rw [div_le_iff₀ (by norm_num)]
      nlinarith
    exact le_trans this h1
  | false =>
    simp only [Bool.false_eq_true, if_false, grow_eq Level hne rt]
    refine ⟨trivial, le_min ?_ (le_trans h0 h1), min_le_right _ _⟩
    have : rt.Curr ≤ rt.Curr * (6 / 5) := by nlinarith
    exact le_trans h0 this

theorem Call_run_in_bounds (Level : List ℚ) (hne : Level ≠ []) (hpos : ∀ x ∈ Level, 0 < x)
    (routine : String) (minTime : ℚ) (hmin : minTime ≤ Level.getLast hne)
    (ct : CountdownTimer) (c : Call)
    (h : ct.Level = Level ∧ ∃ rt, ct.Routines routine = some rt ∧ rt.Min = minTime ∧
      Level.head hne ≤ rt.Curr ∧ rt.Curr ≤ Level.getLast hne) :
    (Call.run ct c).Level = Level ∧ ∃ rt, (Call.run ct c).Routines routine = some rt ∧
      rt.Min = minTime ∧ Level.head hne ≤ rt.Curr ∧ rt.Curr ≤ Level.getLast hne := by
  obtain ⟨hL, rt, hreg, hm, h0, h1⟩ := h
  cases c with
  | update j =>
    simp only [Call.run, Update_eq]
    exact ⟨hL, rt, hreg, hm, h0, h1⟩
  | wait j d =>
    simp only [Call.run]
    by_cases hj : j = routine
    · subst hj
      obtain ⟨k1, k2, _⟩ := waitWith_const d ct j rt hreg
      obtain ⟨a1, a2, a3⟩ := adjust_in_bounds Level hne hpos rt (hm ▸ hmin) h0 h1 d
      refine ⟨k1.trans hL, _, ?_, a1.trans hm, a2, a3⟩
      rw [k2, hL]
      simp
    · cases hreg2 : ct.Routines j with
      | none =>
        rw [waitWith_unknown _ ct j hreg2]
        exact ⟨hL, rt, hreg, hm, h0, h1⟩
      | some rt2 =>
        obtain ⟨k1, k2, _⟩ := waitWith_const d ct j rt2 hreg2
        refine ⟨k1.trans hL, rt, ?_, hm, h0, h1⟩
        rw [k2, Function.update_noteq (Ne.symm hj)]
        exact hreg

/-- C6: for a fixed non-empty table of positive levels and a routine with
`Min <= Level[last]` whose `Curr` starts within `[Level[0], Level[last]]`, after any
sequence of `Wait` and `Update` calls (on any routines, each `Wait` taking either
branch of its adjustment) the routine is still registered with the same `Min` and
`Level[0] <= Curr <= Level[last]`. Ascending order of the table is not needed. -/
theorem Curr_stays_in_bounds (Level : List ℚ) (hne : Level ≠ []) (hpos : ∀ x ∈ Level, 0 < x)
    (ct : CountdownTimer) (hL : ct.Level = Level) (routine : String) (rt : routineTime)
    (hreg : ct.Routines routine = some rt) (hmin : rt.Min ≤ Level.getLast hne)
    (h0 : Level.head hne ≤ rt.Curr) (h1 : rt.Curr ≤ Level.getLast hne) (calls : List Call) :
    (runCalls ct calls).Level = Level ∧
      ∃ rt1, (runCalls ct calls).Routines routine = some rt1 ∧ rt1.Min = rt.Min ∧
        Level.head hne ≤ rt1.Curr ∧ rt1.Curr ≤ Level.getLast hne := by
  have key : ∀ (cs : List Call) (ct1 : CountdownTimer),
      (ct1.Level = Level ∧ ∃ r, ct1.Routines routine = some r ∧ r.Min = rt.Min ∧
        Level.head hne ≤ r.Curr ∧ r.Curr ≤ Level.getLast hne) →
      ((runCalls ct1 cs).Level = Level ∧ ∃ r, (runCalls ct1 cs).Routines routine = some r ∧
        r.Min = rt.Min ∧ Level.head hne ≤ r.Curr ∧ r.Curr ≤ Level.getLast hne) := by
    intro cs
    induction cs with
    | nil => intro ct1 h; simpa [runCalls] using h
    | cons c cs ih =>
      intro ct1 h
      have := ih (Call.run ct1 c) (Call_run_in_bounds Level hne hpos routine rt.Min hmin ct1 c h)
      simpa [runCalls] using this
  exact key calls ct ⟨hL, rt, hreg, rfl, h0, h1⟩

/-- Witness of `Curr_stays_in_bounds`: on `timerR`, a grow, an `Update`, a shrink and
a `Wait` of an unknown routine. -/
theorem Curr_stays_in_bounds_witness :
    ∃ rt1, (runCalls timerR [Call.wait "r" false, Call.update "r", Call.wait "r" true,
        Call.wait "q" false]).Routines "r" = some rt1 ∧ rt1.Min = 1 ∧
      1 ≤ rt1.Curr ∧ rt1.Curr ≤ 60 :=
  (Curr_stays_in_bounds [1, 5, 20, 60] (by simp)
    (by intro x hx; simp at hx; rcases hx with rfl | rfl | rfl | rfl <;> norm_num)
    timerR rfl "r" ⟨1, 1⟩ (by simp [timerR]) (by norm_num) (by simp) (by norm_num)
    [Call.wait "r" false, Call.update "r", Call.wait "r" true, Call.wait "q" false]).2

theorem Float64s_sorted (level : List ℚ) : (Float64s level).Sorted (· ≤ ·) :=
  List.sorted_insertionSort (· ≤ ·) level

theorem Float64s_perm (level : List ℚ) : (Float64s level).Perm level :=
  List.perm_insertionSort (· ≤ ·) level

/-- C7: for every input, `NewCountdownTimer(level, routines)` returns a timer whose
table is in non-decreasing order and is a rearrangement of `level`, or of `[1440]`
when `level` is empty (so it is exactly `[1440]` then); `Level[0]` is the smallest
level; the registry holds exactly the keys of `routines`, each with its supplied
`Min` and with `Curr = Level[0]`; and no flag channel exists. -/
theorem NewCountdownTimer_spec (level : List ℚ) (routines : String → Option ℚ) :
    ∃ ct l0, NewCountdownTimer level routines = some ct ∧
      ct.Level.Sorted (· ≤ ·) ∧
      ct.Level.Perm (if level = [] then [1440] else level) ∧
      (if level = [] then ct.Level = [1440] else True) ∧
      ct.Level[0]? = some l0 ∧ (∀ x ∈ ct.Level, l0 ≤ x) ∧
      (∀ routine, ct.Routines routine =
        (routines routine).map (fun minTime => { Min := minTime, Curr := l0 })) ∧
      (∀ routine, (ct.Routines routine).isSome = (routines routine).isSome) ∧
      ∀ routine, ct.Flag routine = none := by
  have hlen : (level.length = 0) = (level = []) := by simp
  have h1440 : (60 * 24 : ℚ) = 1440 := by norm_num
  have hne : (if level = [] then [(1440 : ℚ)] else level) ≠ [] := by
    split
    · simp
    · assumption
  have hperm := Float64s_perm (if level = [] then [(1440 : ℚ)] else level)
  have hsorted := Float64s_sorted (if level = [] then [(1440 : ℚ)] else level)
  have hne2 : Float64s (if level = [] then [(1440 : ℚ)] else level) ≠ [] := by
    intro h
    rw [h] at hperm
    exact hne (List.Perm.nil_eq hperm).symm
  obtain ⟨l0, t, hcons⟩ := List.exists_cons_of_ne_nil hne2
  refine ⟨{ Level := l0 :: t,
            Routines := fun routine =>
              (routines routine).map (fun minTime => { Curr := l0, Min := minTime }),
            Flag := fun _ => none }, l0, ?_, ?_, ?_, ?_, ?_, ?_, ?_, ?_, ?_⟩
  · simp only [NewCountdownTimer, hlen, h1440, hcons, List.getElem?_cons_zero]
  · simpa [hcons] using hsorted
  · simpa [hcons] using hperm
  · by_cases hl : level = []
    · simp only [hl, if_true] at hcons ⊢
      simp only [Float64s, List.insertionSort, List.orderedInsert] at hcons
      exact hcons.symm
    · simp [hl]
  · simp
  · intro x hx
    exact head_le_of_sorted (l0 :: t) (by simpa [hcons] using hsorted) l0 (by simp) x hx
  · intro routine; rfl
  · intro routine
    cases h : routines routine <;> simp [h]
  · intro routine; rfl

theorem SetRoutine_eq (ct : CountdownTimer) (hne : ct.Level ≠ []) (routine : String)
    (minTime : ℚ) :
    SetRoutine ct routine minTime =
      some { ct with Routines := (Function.update ct.Routines routine
                (some { Min := minTime, Curr := ct.Level.head hne })) } := by
  obtain ⟨l0, t, hcons⟩ := List.exists_cons_of_ne_nil hne
  simp only [SetRoutine, hcons, List.getElem?_cons_zero, List.head_cons]

/-- C8: on a state with a non-empty level table, `SetRoutine(id, min)` returns a
state in which `id` has `Curr = Level[0]` and `Min = min`, whatever it had before;
the table, the flag channels and every other routine are unchanged; calling it
again with the same arguments gives the same state; and calling it after any
sequence of `Wait` adjustments and `Update` calls again leaves `Curr = Level[0]`. -/
theorem SetRoutine_spec (ct : CountdownTimer) (hne : ct.Level ≠ []) (routine : String)
    (minTime : ℚ) :
    ∃ ct1, SetRoutine ct routine minTime = some ct1 ∧
      ct1.Routines routine = some ⟨minTime, ct.Level.head hne⟩ ∧
      ct1.Level = ct.Level ∧ ct1.Flag = ct.Flag ∧
      (∀ other, other ≠ routine → ct1.Routines other = ct.Routines other) ∧
      SetRoutine ct1 routine minTime = some ct1 ∧
      ∀ calls : List Call, ∃ ct2, SetRoutine (runCalls ct1 calls) routine minTime = some ct2 ∧
        ct2.Routines routine = some ⟨minTime, ct.Level.head hne⟩ ∧ ct2.Level = ct.Level := by
  refine ⟨_, SetRoutine_eq ct hne routine minTime, by simp, rfl, rfl, ?_, ?_, ?_⟩
  · intro other ho
    simp [Function.update_noteq ho]
  · rw [SetRoutine_eq _ (by simpa using hne)]
    simp
  · intro calls
    generalize hct1 : ({ ct with Routines := (Function.update ct.Routines routine
        (some { Min := minTime, Curr := ct.Level.head hne })) } : CountdownTimer) = ct1
    have hL : (runCalls ct1 calls).Level = ct.Level := by
      rw [runCalls_Level, ← hct1]
    have hne2 : (runCalls ct1 calls).Level ≠ [] := by
      rw [hL]; exact hne
    refine ⟨_, SetRoutine_eq _ hne2 routine minTime, ?_, hL⟩
    simp [hL]

/-- Witness of `SetRoutine_spec`: registering `r` again on `timerR` with floor 3. -/
theorem SetRoutine_spec_witness :
    ∃ ct1, SetRoutine timerR "r" 3 = some ct1 ∧ ct1.Routines "r" = some ⟨3, 1⟩ ∧
      (∀ other, other ≠ "r" → ct1.Routines other = timerR.Routines other) := by
  obtain ⟨ct1, h1, h2, _, _, h5, _⟩ := SetRoutine_spec timerR (by simp [timerR]) "r" 3
  exact ⟨ct1, h1, by simpa [timerR] using h2, h5⟩

/-- C9: `RemoveRoutine(id)` deletes the routine state and the flag channel of `id`
and leaves the table and the state and channel of every other routine unchanged;
after it, and for every routine that is not registered, `Wait` returns the state
unchanged, without sleeping, without storing a channel and without a panic. -/
theorem RemoveRoutine_then_Wait (ct : CountdownTimer) (routine : String) :
    (RemoveRoutine ct routine).Routines routine = none ∧
      (RemoveRoutine ct routine).Flag routine = none ∧
      (RemoveRoutine ct routine).Level = ct.Level ∧
      (∀ other, other ≠ routine →
        (RemoveRoutine ct routine).Routines other = ct.Routines other ∧
        (RemoveRoutine ct routine).Flag other = ct.Flag other) ∧
      Wait (RemoveRoutine ct routine) routine = ⟨RemoveRoutine ct routine, [], false⟩ ∧
      ∀ (ct1 : CountdownTimer) (unknown : String), ct1.Routines unknown = none →
        Wait ct1 unknown = ⟨ct1, [], false⟩ := by
  refine ⟨by simp [RemoveRoutine], by simp [RemoveRoutine], rfl, ?_, ?_, ?_⟩
  · intro other ho
    simp [RemoveRoutine, Function.update_noteq ho]
  · exact waitWith_unknown _ _ _ (by simp [RemoveRoutine])
  · intro ct1 unknown h
    exact waitWith_unknown _ _ _ h

/-- Witness of `RemoveRoutine_then_Wait`: removing `r` from `timerR`; the routine `q`
was never registered. -/
theorem RemoveRoutine_then_Wait_witness :
    Wait (RemoveRoutine timerR "r") "r" = ⟨RemoveRoutine timerR "r", [], false⟩ ∧
      Wait timerR "q" = ⟨timerR, [], false⟩ :=
  ⟨(RemoveRoutine_then_Wait timerR "r").2.2.2.2.1,
    (RemoveRoutine_then_Wait timerR "r").2.2.2.2.2 timerR "q" (by simp [timerR])⟩

/-- C10: for every routine, registered or not, and every state of its flag channel
(absent, open without a parked receiver, or closed), `Update` returns without a
panic leaving the call and leaves the whole state unchanged, so the table and
every `Curr` and `Min` are as before; on a closed channel the send does panic and
is recovered. -/
theorem Update_changes_nothing (ct : CountdownTimer) (routine : String) :
    (Update ct routine).panicked = false ∧
      (Update ct routine).ct = ct ∧
      (Update ct routine).ct.Level = ct.Level ∧
      (Update ct routine).ct.Routines = ct.Routines ∧
      trySend none = SendOutcome.notReady ∧
      trySend (some Chan.opened) = SendOutcome.notReady ∧
      trySend (some Chan.closed) = SendOutcome.panics := by
  rw [Update_eq]
  exact ⟨rfl, rfl, rfl, rfl, rfl, rfl, rfl⟩

/-- C11 (evaluation at the failing input): `SetLevel` stores its argument as it is.
After `SetLevel([5, 1])` the table is `[5, 1]`, which is not ascending, whereas the
constructor stores the same levels as `[1, 5]`. -/
theorem SetLevel_does_not_sort :
    (SetLevel timerR [5, 1]).Level = [5, 1] ∧
      ¬ List.Sorted (· ≤ ·) (SetLevel timerR [5, 1]).Level ∧
      (NewCountdownTimer [5, 1] (fun _ => none)).map (fun ct => ct.Level) = some [1, 5] := by
  refine ⟨rfl, ?_, ?_⟩
  · norm_num [SetLevel, List.Sorted]
  · norm_num [NewCountdownTimer, Float64s, List.insertionSort, List.orderedInsert]

theorem scanFrom_eq_firstIndexGe (curr : ℚ) : ∀ (suf : List ℚ) (k : Nat),
    scanFrom curr k suf = (firstIndexGe curr suf).map
      (fun i => if k + i ≠ 0 ∧ suf[i]? ≠ some curr then k + i - 1 else k + i) := by
  intro suf
  induction suf with
  | nil => intro k; rfl
  | cons v rest ih =>
    intro k
    by_cases hv : v < curr
    · have hnv : ¬ curr ≤ v := not_le.2 hv
      simp only [scanFrom, firstIndexGe, hv, hnv, if_true, if_false, ih (k + 1), Option.map_map]
      congr 1
      funext i
      simp only [Function.comp, List.getElem?_cons_succ]
      have h1 : k + 1 + i = k + (i + 1) := by omega
      rw [h1]
    · have hcv : curr ≤ v := not_lt.1 hv
      simp only [scanFrom, firstIndexGe, hv, hcv, if_true, if_false, Option.map_some',
        Nat.add_zero, List.getElem?_cons_zero]
      by_cases hk : k = 0 <;> by_cases hvc : v = curr <;> simp [hk, hvc]

theorem LevelFor_eq_LevelForSpec (Level : List ℚ) (curr : ℚ) :
    LevelFor Level curr = LevelForSpec Level curr := by
  simp only [LevelFor, LevelForSpec, scan, scanFrom_eq_firstIndexGe curr Level 0]
  cases firstIndexGe curr Level with
  | none => rfl
  | some k =>
    simp only [Option.map_some', Option.some_bind, Nat.zero_add]
    by_cases h1 : Level[k]? = some curr
    · simp [h1]
    · by_cases h2 : k = 0
      · simp [h2]
      · simp [h1, h2]

theorem firstIndexGe_smallest (curr : ℚ) : ∀ (Level : List ℚ) (k : Nat),
    firstIndexGe curr Level = some k →
    (∃ v, Level[k]? = some v ∧ curr ≤ v) ∧ ∀ j, j < k → ∃ w, Level[j]? = some w ∧ w < curr := by
  intro Level
  induction Level with
  | nil => intro k h; simp [firstIndexGe] at h
  | cons v rest ih =>
    intro k h
    by_cases hcv : curr ≤ v
    · simp only [firstIndexGe, hcv, if_true, Option.some.injEq] at h
      subst h
      exact ⟨⟨v, by simp, hcv⟩, fun j hj => absurd hj (Nat.not_lt_zero j)⟩
    · simp only [firstIndexGe, hcv, if_false, Option.map_eq_some'] at h
      obtain ⟨i, hi, hik⟩ := h
      subst hik
      obtain ⟨⟨w, hw, hcw⟩, hsm⟩ := ih i hi
      refine ⟨⟨w, by simpa using hw, hcw⟩, ?_⟩
      intro j hj
      cases j with
      | zero => exact ⟨v, by simp, not_le.1 hcv⟩
      | succ j => simpa using hsm j (by omega)

theorem firstIndexGe_isSome (curr : ℚ) : ∀ (Level : List ℚ), (∃ x ∈ Level, curr ≤ x) →
    ∃ k, firstIndexGe curr Level = some k := by
  intro Level
  induction Level with
  | nil => rintro ⟨x, hx, _⟩; simp at hx
  | cons v rest ih =>
    rintro ⟨x, hx, hcx⟩
    by_cases hcv : curr ≤ v
    · exact ⟨0, by simp [firstIndexGe, hcv]⟩
    · rcases List.mem_cons.1 hx with rfl | hx
      · exact absurd hcx hcv
      · obtain ⟨k, hk⟩ := ih ⟨x, hx, hcx⟩
        exact ⟨k + 1, by simp [firstIndexGe, hcv, hk]⟩

/-- C13: for every non-empty level table and every `curr <= Level[last]` (ascending
order is not needed), the level chosen by the scan of `Wait` equals the formal
rule of the specification; the smallest index `k` with `Level[k] >= curr` exists,
the scan stops there (selecting `k`, or `k - 1` when `k != 0` and
`Level[k] != curr`), and a `Wait` of a routine at `curr` sleeps exactly once, for
the selected level. -/
theorem Wait_scan_refines_spec (Level : List ℚ) (hne : Level ≠ []) (curr : ℚ)
    (hc : curr ≤ Level.getLast hne) :
    LevelFor Level curr = LevelForSpec Level curr ∧
      ∃ k r, firstIndexGe curr Level = some k ∧
        (∃ v, Level[k]? = some v ∧ curr ≤ v) ∧
        (∀ j, j < k → ∃ w, Level[j]? = some w ∧ w < curr) ∧
        scan Level curr = some (if k ≠ 0 ∧ Level[k]? ≠ some curr then k - 1 else k) ∧
        LevelFor Level curr = some r ∧ LevelForSpec Level curr = some r ∧
        ∀ (ct : CountdownTimer) (routine : String) (minTime : ℚ), ct.Level = Level →
          ct.Routines routine = some ⟨minTime, curr⟩ →
          (Wait ct routine).slept = [sleepArg r] := by
  have heq := LevelFor_eq_LevelForSpec Level curr
  obtain ⟨k, hk⟩ := firstIndexGe_isSome curr Level ⟨_, List.getLast_mem hne, hc⟩
  obtain ⟨hv, hsm⟩ := firstIndexGe_smallest curr Level k hk
  have hscan : scan Level curr =
      some (if k ≠ 0 ∧ Level[k]? ≠ some curr then k - 1 else k) := by
    simp only [scan, scanFrom_eq_firstIndexGe curr Level 0, hk, Option.map_some', Nat.zero_add]
  have hlt := scanFrom_lt curr Level 0 _ hscan
  have hlt2 : (if k ≠ 0 ∧ Level[k]? ≠ some curr then k - 1 else k) < Level.length := by omega
  have hlf : LevelFor Level curr = some (Level.get ⟨_, hlt2⟩) := by
    simp only [LevelFor, hscan, Option.some_bind, List.getElem?_eq_getElem hlt2, List.get_eq_getElem]
  refine ⟨heq, k, _, hk, hv, hsm, hscan, hlf, heq ▸ hlf, ?_⟩
  intro ct routine minTime hL hreg
  have := (Wait_registered ct routine ⟨minTime, curr⟩ hreg).2.2.2.1
  rw [this, hL, hlf]
  rfl

/-- Witness of `Wait_scan_refines_spec` at levels `[1,5,20,60]` and `curr = 7`. -/
theorem Wait_scan_refines_spec_witness :
    (7 : ℚ) ≤ 60 ∧ LevelFor [1, 5, 20, 60] 7 = LevelForSpec [1, 5, 20, 60] 7 :=
  ⟨by norm_num, (Wait_scan_refines_spec [1, 5, 20, 60] (by simp) 7 (by norm_num)).1⟩

/-- C14: for every non-empty ascending level table and all `c1 <= c2 <= Level[last]`,
the scan selects a level for `c1` and for `c2`, both are entries of the table, and
the level for `c1` is at most the level for `c2`. -/
theorem LevelFor_monotone (Level : List ℚ) (hne : Level ≠ []) (hs : Level.Sorted (· ≤ ·))
    (c1 c2 : ℚ) (h12 : c1 ≤ c2) (h2 : c2 ≤ Level.getLast hne) :
    ∃ r1 r2, LevelFor Level c1 = some r1 ∧ LevelFor Level c2 = some r2 ∧
      r1 ≤ r2 ∧ r1 ∈ Level ∧ r2 ∈ Level := by
  obtain ⟨r1, hr1, q1⟩ :=
    LevelFor_some_isQuantized Level hs c1 ⟨_, List.getLast_mem hne, le_trans h12 h2⟩
  obtain ⟨r2, hr2, q2⟩ := LevelFor_some_isQuantized Level hs c2 ⟨_, List.getLast_mem hne, h2⟩
  obtain ⟨l0, t, hcons⟩ := List.exists_cons_of_ne_nil hne
  have hhead : Level.head? = some l0 := by rw [hcons]; rfl
  have hl0 : l0 ∈ Level := by rw [hcons]; simp
  obtain ⟨a1, b1⟩ := q1 l0 hhead
  obtain ⟨a2, b2⟩ := q2 l0 hhead
  have hm1 : r1 ∈ Level := by
    rcases lt_or_le c1 l0 with h | h
    · rw [a1 h]; exact hl0
    · exact (b1 h).1
  have hm2 : r2 ∈ Level := by
    rcases lt_or_le c2 l0 with h | h
    · rw [a2 h]; exact hl0
    · exact (b2 h).1
  refine ⟨r1, r2, hr1, hr2, ?_, hm1, hm2⟩
  rcases lt_or_le c1 l0 with h | h
  · rw [a1 h]
    exact head_le_of_sorted Level hs l0 hhead r2 hm2
  · obtain ⟨_, hle, _⟩ := b1 h
    exact (b2 (le_trans h h12)).2.2 r1 hm1 (le_trans hle h12)

/-- Witness of `LevelFor_monotone` at levels `[1,5,20,60]`, `c1 = 3` and `c2 = 30`. -/
theorem LevelFor_monotone_witness :
    (3 : ℚ) ≤ 30 ∧ ∃ r1 r2, LevelFor [1, 5, 20, 60] 3 = some r1 ∧
      LevelFor [1, 5, 20, 60] 30 = some r2 ∧ r1 ≤ r2 ∧
      r1 ∈ ([1, 5, 20, 60] : List ℚ) ∧ r2 ∈ ([1, 5, 20, 60] : List ℚ) :=
  ⟨by norm_num, LevelFor_monotone [1, 5, 20, 60] (by simp) sorted_1_5_20_60 3 30
    (by norm_num) (by norm_num)⟩

/-- C12: for every local time `now` and every configured `(h, m, s)` in range, the
instant returned by `deadline` has clock time `h:m:s` and no sub-second part; it is
on the calendar day of `now` when `h:m:s` is later than the clock time of `now`
(compared on hour, then minute, then second) and on the following day otherwise;
it is strictly after the whole second of `now`, no instant with clock time
`h:m:s` lies in between, and it is at most 24 hours after `now`. Days are taken as
24 hours. -/
theorem deadline_is_next_occurrence (self : DailyFixedTimer) (routine : String)
    (h m s : Int) (hent : self routine = some (h, m, s))
    (hh : 0 ≤ h ∧ h < 24) (hm : 0 ≤ m ∧ m < 60) (hs : 0 ≤ s ∧ s < 60)
    (now : Time) (hsec : 0 ≤ now.sec ∧ now.sec < 86400)
    (hns : 0 ≤ now.nsec ∧ now.nsec < 1000000000) :
    (self.deadline routine now).Hour = h ∧
      (self.deadline routine now).Minute = m ∧
      (self.deadline routine now).Second = s ∧
      (self.deadline routine now).nsec = 0 ∧
      ((now.Hour < h ∨ (now.Hour = h ∧ now.Minute < m) ∨
          (now.Hour = h ∧ now.Minute = m ∧ now.Second < s)) →
        (self.deadline routine now).day = now.day) ∧
      (¬ (now.Hour < h ∨ (now.Hour = h ∧ now.Minute < m) ∨
          (now.Hour = h ∧ now.Minute = m ∧ now.Second < s)) →
        (self.deadline routine now).day = now.day + 1) ∧
      Time.abs { now with nsec := 0 } < (self.deadline routine now).abs ∧
      (∀ t : Time, 0 ≤ t.sec ∧ t.sec < 86400 → t.Hour = h → t.Minute = m → t.Second = s →
        t.nsec = 0 → Time.abs { now with nsec := 0 } < t.abs →
        (self.deadline routine now).abs ≤ t.abs) ∧
      (self.deadline routine now).abs - now.abs ≤ 24 * 3600 * 1000000000 := by
  obtain ⟨h0, h1⟩ := hh
  obtain ⟨m0, m1⟩ := hm
  obtain ⟨s0, s1⟩ := hs
  obtain ⟨c0, c1⟩ := hsec
  obtain ⟨n0, n1⟩ := hns
  have hdiv : (h * 3600 + m * 60 + s) / 86400 = 0 := by omega
  have hmod : (h * 3600 + m * 60 + s) % 86400 = h * 3600 + m * 60 + s := by omega
  simp only [DailyFixedTimer.deadline, DailyFixedTimer.entry, hent, Option.getD_some,
    Time.Hour, Time.Minute, Time.Second, Time.AddDay, Date, Time.abs, hdiv, hmod, add_zero]
  refine ⟨by omega, by omega, by omega, trivial, ?_, ?_, ?_, ?_, ?_⟩
  · intro hlater
    split_ifs <;> omega
  · intro hnot
    split_ifs <;> (first | omega | rfl)
  · split_ifs <;> (first | omega | (dsimp only; omega))
  · intro t ht th tm ts tn hlt
    rw [tn]
    split_ifs <;> (first | omega | (dsimp only; omega))
  · split_ifs <;> (first | omega | (dsimp only; omega))

/-- Witness of `deadline_is_next_occurrence`: the target 10:00:00 asked for at
10:00:00 and 5 nanoseconds of day 5. -/
theorem deadline_is_next_occurrence_witness :
    (DailyFixedTimer.deadline (fun _ => some (10, 0, 0)) "a" ⟨5, 36000, 5⟩).Hour = 10 ∧
      (DailyFixedTimer.deadline (fun _ => some (10, 0, 0)) "a" ⟨5, 36000, 5⟩).day = 5 + 1 :=
  ⟨(deadline_is_next_occurrence (fun _ => some (10, 0, 0)) "a" 10 0 0 rfl
      (by decide) (by decide) (by decide) ⟨5, 36000, 5⟩ (by decide) (by decide)).1,
    (deadline_is_next_occurrence (fun _ => some (10, 0, 0)) "a" 10 0 0 rfl
      (by decide) (by decide) (by decide) ⟨5, 36000, 5⟩ (by decide) (by decide)).2.2.2.2.2.1
      (by decide)⟩

/-- C15 (evaluation at the failing input): `SetLevel` accepts an empty table. From
`NewCountdownTimer(nil, {"r": 1})`, the call `SetLevel([]float64{})` leaves the
table empty; then `SetRoutine` panics on `Level[0]`, and `Wait("r")` panics on
`Level[0]` in its adjustment. -/
theorem SetLevel_empty_breaks_lookups :
    ∃ ct, NewCountdownTimer [] (fun routine => if routine = "r" then some 1 else none)
        = some ct ∧
      ct.Level = [1440] ∧
      (SetLevel ct []).Level = [] ∧
      SetRoutine (SetLevel ct []) "r" 1 = none ∧
      (Wait (SetLevel ct []) "r").panicked = true := by
  have hnew : NewCountdownTimer [] (fun routine => if routine = "r" then some 1 else none) =
      some { Level := [1440],
             Routines := fun routine =>
               (if routine = "r" then some (1 : ℚ) else none).map
                 (fun minTime => { Curr := 1440, Min := minTime }),
             Flag := fun _ => none } := by
    norm_num [NewCountdownTimer, Float64s, List.insertionSort, List.orderedInsert]
  refine ⟨_, hnew, rfl, rfl, rfl, ?_⟩
  rw [(Wait_registered _ "r" ⟨1, 1440⟩ (by simp [SetLevel])).2.2.2.2]
  simp [SetLevel, shrink]

theorem sleepsLocked_sleeps (held : Nat) (hheld : 0 < held) : ∀ (ds : List Int) (rest : List Event),
    sleepsLocked held (ds.map Event.Sleep ++ rest) = sleepsLocked held rest := by
  intro ds
  induction ds with
  | nil => intro rest; rfl
  | cons d ds ih =>
    intro rest
    show (decide (0 < held) && sleepsLocked held (ds.map Event.Sleep ++ rest)) = _
    rw [ih rest]
    simp [hheld]

/-- C16 (as amended): for every registered routine, `Wait` takes the read lock
first and releases it last, through the deferred `RUnlock` that runs after the
sleep and after the adjustment; every sleep of `Wait` happens while the read lock
is held. -/
theorem Wait_sleeps_holding_read_lock (ct : CountdownTimer) (routine : String)
    (rt : routineTime) (hreg : ct.Routines routine = some rt) :
    waitTrace ct routine =
        [Event.RLock] ++ (Wait ct routine).slept.map Event.Sleep ++
          [Event.Adjust, Event.RUnlock] ∧
      sleepsLocked 0 (waitTrace ct routine) = true ∧
      ((Wait ct routine).slept ≠ [] → sleepsUnlocked 0 (waitTrace ct routine) = false) := by
  have ht : waitTrace ct routine =
      [Event.RLock] ++ (Wait ct routine).slept.map Event.Sleep ++
        [Event.Adjust, Event.RUnlock] := by
    simp only [waitTrace, hreg]
  refine ⟨ht, ?_, ?_⟩
  · rw [ht]
    show sleepsLocked 1
      ((Wait ct routine).slept.map Event.Sleep ++ [Event.Adjust, Event.RUnlock]) = true
    rw [sleepsLocked_sleeps 1 Nat.one_pos]
    rfl
  · intro hne
    rw [ht]
    obtain ⟨d, ds, hds⟩ := List.exists_cons_of_ne_nil hne
    simp [hds, sleepsUnlocked]

/-- Witness of `Wait_sleeps_holding_read_lock` on `timerR`. -/
theorem Wait_sleeps_holding_read_lock_witness :
    timerR.Routines "r" = some ⟨1, 1⟩ ∧ sleepsLocked 0 (waitTrace timerR "r") = true :=
  ⟨by simp [timerR],
    (Wait_sleeps_holding_read_lock timerR "r" ⟨1, 1⟩ (by simp [timerR])).2.1⟩

theorem Wait_timerR_slept : (Wait timerR "r").slept = [Minute] := by
  have hreg : timerR.Routines "r" = some ⟨1, 1⟩ := by simp [timerR]
  have hlf : LevelFor timerR.Level 1 = some 1 := by
    norm_num [timerR, LevelFor, scan, scanFrom]
  rw [(Wait_registered timerR "r" ⟨1, 1⟩ hreg).2.2.2.1]
  simp [hlf, sleepArg_one]

/-- C16 as stated fails: on `timerR`, the routine `r` is registered and `Wait`
sleeps one minute between its `RLock` and its deferred `RUnlock`, so the sleep
does not happen with the lock released. -/
theorem Wait_sleep_not_unlocked :
    timerR.Routines "r" = some ⟨1, 1⟩ ∧
      waitTrace timerR "r" =
        [Event.RLock, Event.Sleep Minute, Event.Adjust, Event.RUnlock] ∧
      sleepsUnlocked 0 (waitTrace timerR "r") = false := by
  have hreg : timerR.Routines "r" = some ⟨1, 1⟩ := by simp [timerR]
  have ht : waitTrace timerR "r" =
      [Event.RLock, Event.Sleep Minute, Event.Adjust, Event.RUnlock] := by
    simp only [waitTrace, hreg, Wait_timerR_slept]
    rfl
  refine ⟨hreg, ht, ?_⟩
  rw [ht]
  simp [sleepsUnlocked]

/-- C17: with levels `[1,5,20,60]`, `Min = 100 > Level[last]` and `Curr = 1` inside
`[Level[0], Level[last]]`, one shrink adjustment leaves `Curr = 100 > Level[last]`;
this is what `Wait` does to such a routine. -/
theorem shrink_can_exceed_ceiling :
    ∃ (Level : List ℚ) (hne : Level ≠ []) (rt : routineTime),
      rt.Min > Level.getLast hne ∧ Level.head hne ≤ rt.Curr ∧ rt.Curr ≤ Level.getLast hne ∧
      (shrink Level rt).rt.Curr > Level.getLast hne ∧
      timerHighMin.Level = Level ∧ timerHighMin.Routines "r" = some rt ∧
      (Wait timerHighMin "r").ct.Routines "r" = some ⟨100, 100⟩ := by
  have hreg : timerHighMin.Routines "r" = some ⟨100, 1⟩ := by simp [timerHighMin]
  have hsh : (shrink [1, 5, 20, 60] ⟨100, 1⟩).rt = ⟨100, 100⟩ := by
    norm_num [shrink]
  refine ⟨[1, 5, 20, 60], by simp, ⟨100, 1⟩, ?_, ?_, ?_, ?_, rfl, hreg, ?_⟩
  · norm_num
  · norm_num
  · norm_num
  · rw [hsh]; norm_num
  · rw [(Wait_registered timerHighMin "r" ⟨100, 1⟩ hreg).2.1]
    have : timerHighMin.Level = [1, 5, 20, 60] := rfl
    rw [this, hsh]
    simp

theorem updates_eq (n : Nat) (ct : CountdownTimer) (routine : String) :
    updates n ct routine = ct := by
  induction n with
  | zero => rfl
  | succ n ih =>
    simp only [updates, Function.iterate_succ_apply, Update_eq] at ih ⊢
    exact ih

theorem interleavedWait_eq_Wait (ct : CountdownTimer) (routine : String) (n0 n1 n2 n3 : Nat) :
    interleavedWait ct routine n0 n1 n2 n3 = Wait ct routine := by
  simp only [interleavedWait, updates_eq, Wait, waitWith]
  cases hreg : ct.Routines routine with
  | none => rfl
  | some rt =>
    simp only [waitArm]
    cases hk : scan ct.Level rt.Curr with
    | none => simp [waitRetire, waitResolve, hreg]
    | some k =>
      have hlt : k < ct.Level.length := by
        have := scanFrom_lt rt.Curr ct.Level 0 k hk
        omega
      simp [List.getElem?_eq_getElem hlt, waitRetire, waitResolve, hreg]

theorem Wait_timerR_Curr : (Wait timerR "r").ct.Routines "r" = some ⟨1, 1⟩ := by
  have hreg : timerR.Routines "r" = some ⟨1, 1⟩ := by simp [timerR]
  have hsh : (shrink timerR.Level ⟨1, 1⟩).rt = ⟨1, 1⟩ := by
    norm_num [timerR, shrink]
  rw [(Wait_registered timerR "r" ⟨1, 1⟩ hreg).2.1, hsh]
  simp

/-- C18 (evaluation at the failing input): on `timerR`, an `Update("r")` that runs
after `Wait("r")` has made its channel and before it closes it finds the send not
ready and drops the signal; the cycle with that `Update` and the cycle without
any `Update` both end in the receive branch with `Curr = 1`, where the grow branch
would have given 1.2. -/
theorem Update_in_window_is_dropped :
    updateSend (waitArm timerR "r") "r" = some SendOutcome.notReady ∧
      (Update (waitArm timerR "r") "r").ct = waitArm timerR "r" ∧
      (interleavedWait timerR "r" 0 1 0 0).ct.Routines "r" = some ⟨1, 1⟩ ∧
      (interleavedWait timerR "r" 0 0 0 0).ct.Routines "r" = some ⟨1, 1⟩ ∧
      (interleavedWait timerR "r" 0 0 0 0).slept = [Minute] ∧
      (grow timerR.Level ⟨1, 1⟩).rt = ⟨1, 6 / 5⟩ ∧
      (interleavedWait timerR "r" 0 0 0 0).ct.Routines "r" ≠ some (grow timerR.Level ⟨1, 1⟩).rt := by
  have hg : (grow timerR.Level ⟨1, 1⟩).rt = ⟨1, 6 / 5⟩ := by
    norm_num [timerR, grow]
  refine ⟨?_, ?_, ?_, ?_, ?_, hg, ?_⟩
  · simp [updateSend, waitArm, timerR, trySend]
  · rw [Update_eq]
  · rw [interleavedWait_eq_Wait]; exact Wait_timerR_Curr
  · rw [interleavedWait_eq_Wait]; exact Wait_timerR_Curr
  · rw [interleavedWait_eq_Wait]; exact Wait_timerR_slept
  · rw [interleavedWait_eq_Wait, Wait_timerR_Curr, hg]
    norm_num

theorem adjust_Min (Level : List ℚ) (hne : Level ≠ []) (rt : routineTime) (d : Bool) :
    (if d then shrink Level rt else grow Level rt).rt.Min = rt.Min ∧
      (if d then shrink Level rt else grow Level rt).panicked = false := by
  cases d with
  | true => simp [shrink_eq Level hne rt]
  | false => simp [grow_eq Level hne rt]

/-- C19: for every state with a non-empty level table and every registered
routine, `Wait` returns without a panic and changes only the `Curr` of that
routine and its flag channel: its `Min`, the state and channel of every other
routine, the set of registered routines and the table are unchanged. The same
frame holds for the routine states and the table when the adjustment is made to
take either branch. -/
theorem Wait_changes_only_Curr (ct : CountdownTimer) (hne : ct.Level ≠ []) (routine : String)
    (rt : routineTime) (hreg : ct.Routines routine = some rt) :
    (Wait ct routine).panicked = false ∧
      (Wait ct routine).ct.Level = ct.Level ∧
      (∃ c, (Wait ct routine).ct.Routines routine = some ⟨rt.Min, c⟩) ∧
      (∀ other, other ≠ routine →
        (Wait ct routine).ct.Routines other = ct.Routines other ∧
        (Wait ct routine).ct.Flag other = ct.Flag other) ∧
      (∀ other, ((Wait ct routine).ct.Routines other).isSome = (ct.Routines other).isSome) ∧
      ∀ d : Bool,
        (waitWith (fun _ => d) ct routine).panicked = false ∧
        (waitWith (fun _ => d) ct routine).ct.Level = ct.Level ∧
        (∃ c, (waitWith (fun _ => d) ct routine).ct.Routines routine = some ⟨rt.Min, c⟩) ∧
        ∀ other, other ≠ routine →
          (waitWith (fun _ => d) ct routine).ct.Routines other = ct.Routines other := by
  obtain ⟨h1, h2, h3, _, h5⟩ := Wait_registered ct routine rt hreg
  have hm := adjust_Min ct.Level hne rt true
  simp only [if_true] at hm
  refine ⟨by rw [h5]; exact hm.2, h1, ⟨(shrink ct.Level rt).rt.Curr, ?_⟩, ?_, ?_, ?_⟩
  · rw [h2, ← hm.1]
    simp
  · intro other ho
    rw [h2, h3]
    simp [Function.update_noteq ho]
  · intro other
    rw [h2]
    by_cases ho : other = routine
    · subst ho
      simp [hreg]
    · simp [Function.update_noteq ho]
  · intro d
    obtain ⟨k1, k2, k3⟩ := waitWith_const d ct routine rt hreg
    have hd := adjust_Min ct.Level hne rt d
    refine ⟨by rw [k3]; exact hd.2, k1,
      ⟨(if d then shrink ct.Level rt else grow ct.Level rt).rt.Curr, ?_⟩, ?_⟩
    · rw [k2, ← hd.1]
      simp
    · intro other ho
      rw [k2]
      simp [Function.update_noteq ho]

/-- Witness of `Wait_changes_only_Curr` on `timerR`: the routine `q` stays unregistered
and `r` keeps `Min = 1`. -/
theorem Wait_changes_only_Curr_witness :
    timerR.Routines "r" = some ⟨1, 1⟩ ∧
      (Wait timerR "r").ct.Level = timerR.Level ∧
      (Wait timerR "r").ct.Routines "q" = timerR.Routines "q" :=
  ⟨by simp [timerR],
    (Wait_changes_only_Curr timerR (by simp [timerR]) "r" ⟨1, 1⟩ (by simp [timerR])).2.1,
    ((Wait_changes_only_Curr timerR (by simp [timerR]) "r" ⟨1, 1⟩ (by simp [timerR])).2.2.2.1
      "q" (by decide)).1⟩

/-- C1 (evaluation at the failing input): `NewCountdownTimer([1,5,20,60], {"r": 100})`
gives a routine with `Min = 100` above every level. Its first `Wait` sleeps one
minute and leaves `Curr = 100`. For `curr = 100` the scan then runs off the table
and selects no level, although 60 is the largest entry that is at most 100, so
the second `Wait` does not sleep at all and leaves `Curr = 100` again. -/
theorem Wait_above_ceiling_never_sleeps :
    NewCountdownTimer [1, 5, 20, 60] (fun routine => if routine = "r" then some 100 else none)
        = some timerHighMin ∧
      (Wait timerHighMin "r").slept = [Minute] ∧
      (Wait timerHighMin "r").ct.Routines "r" = some ⟨100, 100⟩ ∧
      (Wait timerHighMin "r").ct.Level = [1, 5, 20, 60] ∧
      LevelFor [1, 5, 20, 60] 100 = none ∧
      IsQuantized [1, 5, 20, 60] 100 60 ∧
      (Wait (Wait timerHighMin "r").ct "r").slept = [] ∧
      (Wait (Wait timerHighMin "r").ct "r").ct.Routines "r" = some ⟨100, 100⟩ := by
  have hL : timerHighMin.Level = [1, 5, 20, 60] := rfl
  have hreg : timerHighMin.Routines "r" = some ⟨100, 1⟩ := by simp [timerHighMin]
  have hlf1 : LevelFor [1, 5, 20, 60] 1 = some 1 := by
    norm_num [LevelFor, scan, scanFrom]
  have hlf2 : LevelFor [1, 5, 20, 60] 100 = none := by
    norm_num [LevelFor, scan, scanFrom]
  have hsh1 : (shrink [1, 5, 20, 60] ⟨100, 1⟩).rt = ⟨100, 100⟩ := by
    norm_num [shrink]
  have hsh2 : (shrink [1, 5, 20, 60] ⟨100, 100⟩).rt = ⟨100, 100⟩ := by
    norm_num [shrink]
  obtain ⟨a1, a2, _, a4, _⟩ := Wait_registered timerHighMin "r" ⟨100, 1⟩ hreg
  have hreg2 : (Wait timerHighMin "r").ct.Routines "r" = some ⟨100, 100⟩ := by
    rw [a2, hL, hsh1]; simp
  obtain ⟨_, b2, _, b4, _⟩ := Wait_registered (Wait timerHighMin "r").ct "r" ⟨100, 100⟩ hreg2
  refine ⟨?_, ?_, hreg2, a1.trans hL, hlf2, ?_, ?_, ?_⟩
  · simp only [NewCountdownTimer, timerHighMin]
    norm_num [Float64s, List.insertionSort, List.orderedInsert]
  · rw [a4, hL]
    simp [hlf1, sleepArg_one]
  · exact LevelFor_above_ceiling_selects_nothing.2.2.1
  · rw [b4, a1, hL]
    simp [hlf2]
  · rw [b2, a1, hL, hsh2]
    simp

end Timer
